import Mathlib

/-!
# Verification of the Mandelbrot escape-time renderer

Shallow embedding of `src/cpp_tutorial_741190.cpp`.

The C++ program computes, per pixel, the Mandelbrot escape time of the
complex coordinate the pixel maps to, colors it, and stores it in a
row-major buffer.  The embedding models:

* `std::complex<double>` as a pair of rationals (`Cplx`): the claims under
  study are either exact-arithmetic facts (the inputs involved, such as
  `0`, `-1`, `2`, `-2.0`, `1.5`, are exactly representable doubles and the
  operations on them are exact) or structural facts about the loop and the
  buffer that do not depend on rounding;
* C++ `int` as `ℤ`, with C++ `/` and `%` on `int` as `Int.tdiv` /
  `Int.tmod` (truncation toward zero, as C++ specifies);
* the cast `(unsigned char)v` as `v mod 256` (`uchar`);
* the `while (std::norm(z) < 4.0 && iterations < maxIterations)` loop as
  the structurally recursive `escapeAux` whose fuel is the number of
  remaining permitted iterations (`maxIterations - iterations`);
* the `std::vector<RGB>` buffer, written at `image[y*width+x]` while
  traversing `y` outer / `x` inner, as the row-major list produced in that
  same traversal order (`generateMandelbrot`).

File I/O (the PPM writing at the end of `generateMandelbrot`) is outside
the claims and is not modelled; `generateMandelbrot` here denotes the
fully assembled pixel buffer.
-/

/-- A complex number as stored in `std::complex<double>`: real and
imaginary parts, modelled exactly over `ℚ`. -/
structure Cplx where
  re : ℚ
  im : ℚ
deriving DecidableEq, Repr

/-- The value `std::complex<double> z(0.0, 0.0)`. -/
def cZero : Cplx := ⟨0, 0⟩

/-- Complex addition. -/
def cAdd (a b : Cplx) : Cplx := ⟨a.re + b.re, a.im + b.im⟩

/-- Complex multiplication. -/
def cMul (a b : Cplx) : Cplx := ⟨a.re * b.re - a.im * b.im, a.re * b.im + a.im * b.re⟩

/-- `std::norm(z)`: the squared magnitude `re² + im²`. -/
def cNormSq (a : Cplx) : ℚ := a.re * a.re + a.im * a.im

/-- One loop-body update `z = z * z + c`. -/
def mandelStep (c z : Cplx) : Cplx := cAdd (cMul z z) c

/-- The orbit `z₀ = 0, z_{k+1} = z_k² + c` that the escape loop traverses. -/
def orbitZ (c : Cplx) : ℕ → Cplx
  | 0 => cZero
  | k + 1 => mandelStep c (orbitZ c k)

/-- The escape loop
`while (std::norm(z) < 4.0 && iterations < maxIterations) { z = z*z + c; iterations++; }`
with `fuel = maxIterations - iterations` remaining permitted iterations;
returns the number of loop-body executions still performed from state `z`. -/
def escapeAux (c : Cplx) (z : Cplx) : ℕ → ℕ
  | 0 => 0
  | fuel + 1 => if cNormSq z < 4 then escapeAux c (mandelStep c z) fuel + 1 else 0

/-- The escape-time evaluator of §4.1: the value of `iterations` after the
loop in `generateMandelbrot`, starting from `z = 0`, `iterations = 0`.
A cap `maxIterations ≤ 0` permits no iterations (`Int.toNat` sends it to 0). -/
def escapeTime (c : Cplx) (maxIterations : ℤ) : ℤ :=
  (escapeAux c cZero maxIterations.toNat : ℤ)

/-- An RGB color; each channel holds the value of an `unsigned char`. -/
structure RGB where
  r : ℕ
  g : ℕ
  b : ℕ
deriving DecidableEq, Repr

/-- The C++ cast `(unsigned char)v`: conversion to an unsigned 8-bit
integer is reduction modulo 2⁸. -/
def uchar (v : ℤ) : ℕ := (v % 256).toNat

/-- `RGB getColor(int iterations, int maxIterations)` from the source:
black on the sentinel `iterations == maxIterations`; otherwise
`colorValue = (iterations * 255) / maxIterations` with C++ truncated
division, and the three channels `colorValue % 255`,
`colorValue * 2 % 255`, `colorValue * 4 % 255` cast to `unsigned char`. -/
def getColor (iterations maxIterations : ℤ) : RGB :=
  if iterations = maxIterations then ⟨0, 0, 0⟩
  else
    let colorValue := Int.tdiv (iterations * 255) maxIterations
    ⟨uchar (Int.tmod colorValue 255),
     uchar (Int.tmod (colorValue * 2) 255),
     uchar (Int.tmod (colorValue * 4) 255)⟩

/-- The color mapper as the spec words it (§4.3): `colorValue =
floor(iterations * 255 / maxIterations)` (`Int.fdiv` is floor division)
and channels `colorValue mod 255` etc. with mathematical (nonnegative)
`mod`.  Stated separately from `getColor` so that the refinement between
the two can be proved. -/
def colorOfSpec (iterations maxIterations : ℤ) : RGB :=
  if iterations = maxIterations then ⟨0, 0, 0⟩
  else
    let colorValue := Int.fdiv (iterations * 255) maxIterations
    ⟨(colorValue % 255).toNat, (colorValue * 2 % 255).toNat, (colorValue * 4 % 255).toNat⟩

/-- `realStart = -2.0 * zoom - offsetX`. -/
def realStart (zoom offsetX : ℚ) : ℚ := -2 * zoom - offsetX

/-- `realEnd = 1.0 * zoom - offsetX`. -/
def realEnd (zoom offsetX : ℚ) : ℚ := 1 * zoom - offsetX

/-- `imagStart = -1.5 * zoom - offsetY`. -/
def imagStart (zoom offsetY : ℚ) : ℚ := -(3/2) * zoom - offsetY

/-- `imagEnd = 1.5 * zoom - offsetY`. -/
def imagEnd (zoom offsetY : ℚ) : ℚ := (3/2) * zoom - offsetY

/-- The pixel-to-plane mapping of §4.2:
`real = realStart + (double)x / (width - 1) * (realEnd - realStart)` and
likewise for `imag`. -/
def pixelCoord (width height : ℤ) (zoom offsetX offsetY : ℚ) (x y : ℤ) : Cplx :=
  ⟨realStart zoom offsetX +
     (x : ℚ) / ((width : ℚ) - 1) * (realEnd zoom offsetX - realStart zoom offsetX),
   imagStart zoom offsetY +
     (y : ℚ) / ((height : ℚ) - 1) * (imagEnd zoom offsetY - imagStart zoom offsetY)⟩

/-- The color stored for pixel `(x, y)`:
`image[y * width + x] = getColor(iterations, maxIterations)` where
`iterations` is the escape time of the pixel's coordinate. -/
def renderPixel (width height maxIterations : ℤ) (zoom offsetX offsetY : ℚ)
    (x y : ℤ) : RGB :=
  getColor (escapeTime (pixelCoord width height zoom offsetX offsetY x y) maxIterations)
    maxIterations

/-- The pixel buffer `std::vector<RGB> image(width * height)` after the
double loop `for y in [0,height) for x in [0,width)` has stored
`image[y*width+x]`: the C++ traversal writes exactly the row-major order,
so the buffer is the concatenation of the rows. -/
def generateMandelbrot (width height maxIterations : ℤ) (zoom offsetX offsetY : ℚ) :
    List RGB :=
  (List.range height.toNat).flatMap fun (y : ℕ) =>
    (List.range width.toNat).map fun (x : ℕ) =>
      renderPixel width height maxIterations zoom offsetX offsetY (x : ℤ) (y : ℤ)

-- ### Helper lemmas

/-- The first loop-body execution turns `z = 0` into `c`. -/
theorem mandelStep_zero (c : Cplx) : mandelStep c cZero = c := by
  cases c with
  | mk re im =>
    simp only [mandelStep, cMul, cAdd, cZero, Cplx.mk.injEq]
    constructor <;> ring

/-- Once the current `z` has `|z|² ≥ 4` the loop performs no further
iterations. -/
theorem escapeAux_of_escaped (c z : Cplx) (f : ℕ) (h : ¬ cNormSq z < 4) :
    escapeAux c z f = 0 := by
  cases f <;> simp [escapeAux, h]

/-- The loop performs at most `fuel` iterations. -/
theorem escapeAux_le (c : Cplx) (z : Cplx) (f : ℕ) : escapeAux c z f ≤ f := by
  induction f generalizing z with
  | zero => exact Nat.le_refl 0
  | succ f ih =>
    simp only [escapeAux]
    split
    · exact Nat.succ_le_succ (ih _)
    · exact Nat.zero_le _

/-- More fuel never yields a smaller count. -/
theorem escapeAux_mono (c : Cplx) (z : Cplx) {f₁ f₂ : ℕ} (h : f₁ ≤ f₂) :
    escapeAux c z f₁ ≤ escapeAux c z f₂ := by
  induction f₁ generalizing z f₂ with
  | zero => exact Nat.zero_le _
  | succ f₁ ih =>
    obtain ⟨f₂, rfl⟩ : ∃ g, f₂ = g + 1 := ⟨f₂ - 1, by omega⟩
    simp only [escapeAux]
    split
    · exact Nat.succ_le_succ (ih _ (by omega))
    · exact Nat.le_refl 0

/-- Iterating the loop body `k + 1` times from `z` is iterating it `k`
times from `mandelStep c z`; consequence of the recursive orbit shape. -/
theorem orbitZ_succ (c : Cplx) (k : ℕ) : orbitZ c (k + 1) = mandelStep c (orbitZ c k) := rfl

/-- The auxiliary orbit starting from an arbitrary `z`. -/
def orbitFrom (c z : Cplx) : ℕ → Cplx
  | 0 => z
  | k + 1 => orbitFrom c (mandelStep c z) k

theorem orbitFrom_succ_left (c z : Cplx) (k : ℕ) :
    orbitFrom c z (k + 1) = orbitFrom c (mandelStep c z) k := rfl

/-- `orbitFrom` started at `cZero` is `orbitZ`. -/
theorem orbitFrom_zero (c : Cplx) : ∀ k, orbitFrom c cZero k = orbitZ c k := by
  have step : ∀ z k, orbitFrom c z (k + 1) = mandelStep c (orbitFrom c z k) := by
    intro z k
    induction k generalizing z with
    | zero => rfl
    | succ k ih => rw [orbitFrom_succ_left, ih, orbitFrom_succ_left]
  intro k
  induction k with
  | zero => rfl
  | succ k ih => rw [step, ih, orbitZ_succ]

/-- The loop consumes all its fuel exactly when every `z` it tests along
the way still satisfies `|z|² < 4`. -/
theorem escapeAux_eq_fuel_iff (c : Cplx) (z : Cplx) (f : ℕ) :
    escapeAux c z f = f ↔ ∀ k, k < f → cNormSq (orbitFrom c z k) < 4 := by
  induction f generalizing z with
  | zero => simp [escapeAux]
  | succ f ih =>
    simp only [escapeAux]
    by_cases h : cNormSq z < 4
    · rw [if_pos h]
      constructor
      · intro hf k hk
        cases k with
        | zero => exact h
        | succ k =>
          rw [orbitFrom_succ_left]
          exact (ih (mandelStep c z)).mp (by omega) k (by omega)
      · intro hall
        have : escapeAux c (mandelStep c z) f = f :=
          (ih (mandelStep c z)).mpr fun k hk => by
            have := hall (k + 1) (by omega)
            rwa [orbitFrom_succ_left] at this
        omega
    · rw [if_neg h]
      constructor
      · omega
      · intro hall
        exact absurd (hall 0 (Nat.succ_pos f)) h

-- ### Grid (row-major buffer) helpers

/-- Length of the row-major grid: `h` rows of `w` pixels. -/
theorem grid_length {α : Type} (f : ℕ → ℕ → α) (w h : ℕ) :
    ((List.range h).flatMap fun y => (List.range w).map fun x => f x y).length = h * w := by
  induction h with
  | zero => simp
  | succ h ih =>
    rw [List.range_succ, List.flatMap_append]
    simp only [List.length_append, ih]
    simp [Nat.succ_mul]

/-- Element at linear index `y * w + x` of the row-major grid is the value
computed for pixel `(x, y)`. -/
theorem grid_get {α : Type} (f : ℕ → ℕ → α) (w h x y : ℕ) (hx : x < w) (hy : y < h) :
    ((List.range h).flatMap fun y => (List.range w).map fun x => f x y)[y * w + x]? =
      some (f x y) := by
  induction h with
  | zero => omega
  | succ h ih =>
    rw [List.range_succ, List.flatMap_append]
    by_cases hyh : y < h
    · rw [List.getElem?_append_left]
      · exact ih hyh
      · rw [grid_length]
        calc y * w + x < y * w + w := by omega
        _ = (y + 1) * w := by ring
        _ ≤ h * w := Nat.mul_le_mul_right w hyh
    · have hyh' : y = h := by omega
      subst hyh'
      rw [List.getElem?_append_right]
      · rw [grid_length]
        simp only [List.flatMap_cons, List.flatMap_nil, List.append_nil]
        have hxx : y * w + x - y * w = x := by omega
        rw [hxx, List.getElem?_map, List.getElem?_range hx]
        rfl
      · rw [grid_length]
        omega

/-- The `unsigned char` cast never exceeds 255. -/
theorem uchar_le (v : ℤ) : uchar v ≤ 255 := by
  unfold uchar
  have h1 : v % 256 < 256 := Int.emod_lt_of_pos v (by norm_num)
  omega

/-- Every color `getColor` produces has all channels in `[0, 255]`. -/
theorem getColor_channels_le (it m : ℤ) :
    (getColor it m).r ≤ 255 ∧ (getColor it m).g ≤ 255 ∧ (getColor it m).b ≤ 255 := by
  unfold getColor
  split
  · exact ⟨by norm_num, by norm_num, by norm_num⟩
  · exact ⟨uchar_le _, uchar_le _, uchar_le _⟩

/-- For a nonnegative operand, the C++ `% 255` followed by the
`unsigned char` cast is plain mathematical `mod 255`. -/
theorem uchar_tmod_255 (a : ℤ) (ha : 0 ≤ a) :
    uchar (Int.tmod a 255) = (a % 255).toNat := by
  rw [Int.tmod_eq_emod ha (by norm_num)]
  have h1 : 0 ≤ a % 255 := Int.emod_nonneg a (by norm_num)
  have h2 : a % 255 < 255 := Int.emod_lt_of_pos a (by norm_num)
  unfold uchar
  rw [Int.emod_eq_of_lt h1 (by omega)]

/-- The orbit of `c = 0` stays at `0` forever. -/
theorem orbitZ_zero_c : ∀ k, orbitZ ⟨0, 0⟩ k = cZero := by
  intro k
  induction k with
  | zero => rfl
  | succ k ih => rw [orbitZ_succ, ih, mandelStep_zero]; rfl

/-- The orbit of `c = -1` alternates between `0` and `-1`. -/
theorem orbitZ_negOne : ∀ k, orbitZ ⟨-1, 0⟩ k = cZero ∨ orbitZ ⟨-1, 0⟩ k = ⟨-1, 0⟩ := by
  intro k
  induction k with
  | zero => left; rfl
  | succ k ih =>
    rcases ih with h | h
    · right; rw [orbitZ_succ, h, mandelStep_zero]
    · left; rw [orbitZ_succ, h]; with_unfolding_all decide

-- ### Claim theorems

/-- C1, counterexample: for `c = 2 + 0i` we have `|c|² = 4 ≥ 4` and cap
`N = 1 ≥ 1`, yet `escapeTime(c, N) = 1`, not `0` as the claim states.
The first loop check tests `z = 0` (norm `0 < 4`), so the body always runs
once, setting `z = c` and `iterations = 1` before the check that sees
`|c|² ≥ 4`. -/
theorem escape_highNorm_counterexample :
    4 ≤ cNormSq ⟨2, 0⟩ ∧ (1 : ℤ) ≤ 1 ∧ escapeTime ⟨2, 0⟩ 1 ≠ 0 := by
  with_unfolding_all decide

/-- C1 (amended): for every `c` with `|c|² ≥ 4` and every cap `N ≥ 1`, the
escape loop runs its body exactly once — the initial check sees `z = 0`,
the body sets `z = c` and increments the count, and the second check exits
on `|c|² ≥ 4` — so `escapeTime(c, N) = 1`, not `0`. -/
theorem escapeTime_of_normSq_ge_four (c : Cplx) (N : ℤ)
    (hc : 4 ≤ cNormSq c) (hN : 1 ≤ N) : escapeTime c N = 1 := by
  unfold escapeTime
  obtain ⟨f, hf⟩ : ∃ f, N.toNat = f + 1 := ⟨N.toNat - 1, by omega⟩
  rw [hf]
  have h0 : cNormSq cZero < 4 := by norm_num [cNormSq, cZero]
  simp only [escapeAux, if_pos h0, mandelStep_zero]
  rw [escapeAux_of_escaped c c f (not_lt.mpr hc)]
  norm_num

/-- Witness for C1 (amended) at `c = -2 + i`, `N = 3`. -/
theorem escapeTime_of_normSq_ge_four_witness : escapeTime ⟨-2, 1⟩ 3 = 1 :=
  escapeTime_of_normSq_ge_four ⟨-2, 1⟩ 3 (by norm_num [cNormSq]) (by norm_num)

/-- C2: for every `c` and cap `maxIterations ≥ 1`, the escape time lies in
`[0, maxIterations]`, and it equals `maxIterations` exactly when every
orbit point the loop tests stays below the escape threshold (the loop runs
to completion without escaping). -/
theorem escapeTime_bounds_and_sentinel (c : Cplx) (m : ℤ) (hm : 1 ≤ m) :
    0 ≤ escapeTime c m ∧ escapeTime c m ≤ m ∧
      (escapeTime c m = m ↔ ∀ k, k < m.toNat → cNormSq (orbitZ c k) < 4) := by
  have hmn : (m.toNat : ℤ) = m := Int.toNat_of_nonneg (by omega)
  refine ⟨Int.natCast_nonneg _, ?_, ?_⟩
  · unfold escapeTime
    rw [← hmn]
    exact_mod_cast escapeAux_le c cZero m.toNat
  · unfold escapeTime
    rw [← hmn]
    constructor
    · intro h k hk
      have h' : escapeAux c cZero m.toNat = m.toNat := by exact_mod_cast h
      have := (escapeAux_eq_fuel_iff c cZero m.toNat).mp h' k hk
      rwa [orbitFrom_zero] at this
    · intro h
      have h' : escapeAux c cZero m.toNat = m.toNat :=
        (escapeAux_eq_fuel_iff c cZero m.toNat).mpr fun k hk => by
          rw [orbitFrom_zero]; exact h k hk
      exact_mod_cast h'

/-- Witness for C2 at `c = 0`, `maxIterations = 1`. -/
theorem escapeTime_bounds_and_sentinel_witness :
    0 ≤ escapeTime ⟨0, 0⟩ 1 ∧ escapeTime ⟨0, 0⟩ 1 ≤ 1 ∧
      (escapeTime ⟨0, 0⟩ 1 = 1 ↔ ∀ k, k < (1 : ℤ).toNat → cNormSq (orbitZ ⟨0, 0⟩ k) < 4) :=
  escapeTime_bounds_and_sentinel ⟨0, 0⟩ 1 (by norm_num)

/-- C3: the known points `c = 0` (orbit constantly `0`) and `c = -1`
(orbit alternating `0, -1`) never escape, so for every cap `N ≥ 0` the
escape time is `N` itself, and `getColor` maps the result to black. -/
theorem escapeTime_known_points (N : ℤ) (hN : 0 ≤ N) :
    escapeTime ⟨0, 0⟩ N = N ∧ escapeTime ⟨-1, 0⟩ N = N ∧
      getColor (escapeTime ⟨0, 0⟩ N) N = ⟨0, 0, 0⟩ ∧
      getColor (escapeTime ⟨-1, 0⟩ N) N = ⟨0, 0, 0⟩ := by
  have hmn : (N.toNat : ℤ) = N := Int.toNat_of_nonneg hN
  have h0 : ∀ k, cNormSq (orbitZ ⟨0, 0⟩ k) < 4 := fun k => by
    rw [orbitZ_zero_c]; norm_num [cNormSq, cZero]
  have h1 : ∀ k, cNormSq (orbitZ ⟨-1, 0⟩ k) < 4 := fun k => by
    rcases orbitZ_negOne k with h | h <;> rw [h] <;> norm_num [cNormSq, cZero]
  have e0 : escapeTime ⟨0, 0⟩ N = N := by
    unfold escapeTime
    rw [(escapeAux_eq_fuel_iff _ _ _).mpr fun k _ => by rw [orbitFrom_zero]; exact h0 k, hmn]
  have e1 : escapeTime ⟨-1, 0⟩ N = N := by
    unfold escapeTime
    rw [(escapeAux_eq_fuel_iff _ _ _).mpr fun k _ => by rw [orbitFrom_zero]; exact h1 k, hmn]
  refine ⟨e0, e1, ?_, ?_⟩
  · rw [e0]; simp [getColor]
  · rw [e1]; simp [getColor]

/-- Witness for C3 at `N = 7`. -/
theorem escapeTime_known_points_witness :
    escapeTime ⟨0, 0⟩ 7 = 7 ∧ escapeTime ⟨-1, 0⟩ 7 = 7 ∧
      getColor (escapeTime ⟨0, 0⟩ 7) 7 = ⟨0, 0, 0⟩ ∧
      getColor (escapeTime ⟨-1, 0⟩ 7) 7 = ⟨0, 0, 0⟩ :=
  escapeTime_known_points 7 (by norm_num)

/-- C4, counterexample: `getColor(0, 10)` is black although
`0 ≠ 10` — the non-sentinel branch also produces `(0,0,0)` whenever
`colorValue % 255 = 0` — so "black exactly when iterations equals
maxIterations" fails in the only-if direction. -/
theorem getColor_black_counterexample :
    getColor 0 10 = ⟨0, 0, 0⟩ ∧ (0 : ℤ) ≠ 10 := by
  with_unfolding_all decide

/-- C4 (amended): for escape counts `0 ≤ iterations` and caps
`maxIterations ≥ 1`, `getColor` returns black when
`iterations = maxIterations`, and otherwise returns exactly the
spec-formula triple `colorOfSpec` (`colorValue = floor(iterations * 255 /
maxIterations)`, channels `colorValue mod 255`, `colorValue * 2 mod 255`,
`colorValue * 4 mod 255`); that triple itself can also be black, e.g. at
`iterations = 0`. -/
theorem getColor_eq_spec (it m : ℤ) (h0 : 0 ≤ it) (h1 : 1 ≤ m) :
    (it = m → getColor it m = ⟨0, 0, 0⟩) ∧ getColor it m = colorOfSpec it m := by
  constructor
  · intro h; simp [getColor, h]
  · unfold getColor colorOfSpec
    by_cases h : it = m
    · simp [h]
    · rw [if_neg h, if_neg h]
      have ha : (0 : ℤ) ≤ it * 255 := by positivity
      have hm0 : (0 : ℤ) ≤ m := by omega
      have hdiv : Int.tdiv (it * 255) m = it * 255 / m := Int.tdiv_eq_ediv ha hm0
      have hfdiv : Int.fdiv (it * 255) m = it * 255 / m := Int.fdiv_eq_ediv _ hm0
      have hcv0 : 0 ≤ it * 255 / m := Int.ediv_nonneg ha hm0
      simp only [hdiv, hfdiv]
      rw [uchar_tmod_255 _ hcv0,
        uchar_tmod_255 _ (mul_nonneg hcv0 (by norm_num)),
        uchar_tmod_255 _ (mul_nonneg hcv0 (by norm_num))]

/-- Witness for C4 (amended) at `iterations = 3`, `maxIterations = 7`. -/
theorem getColor_eq_spec_witness :
    ((3 : ℤ) = 7 → getColor 3 7 = ⟨0, 0, 0⟩) ∧ getColor 3 7 = colorOfSpec 3 7 :=
  getColor_eq_spec 3 7 (by norm_num) (by norm_num)

/-- C5: holding `c` fixed, the escape time is monotone in the cap: a
larger iteration budget never produces a smaller count. -/
theorem escapeTime_mono (c : Cplx) (N₁ N₂ : ℤ) (h : N₁ ≤ N₂) :
    escapeTime c N₁ ≤ escapeTime c N₂ := by
  unfold escapeTime
  exact_mod_cast escapeAux_mono c cZero (Int.toNat_le_toNat h)

/-- Witness for C5 at `c = 0`, caps `2 ≤ 5`. -/
theorem escapeTime_mono_witness : escapeTime ⟨0, 0⟩ 2 ≤ escapeTime ⟨0, 0⟩ 5 :=
  escapeTime_mono ⟨0, 0⟩ 2 5 (by norm_num)

/-- C6: the pixel-to-plane mapping is endpoint-inclusive — pixel `(0, 0)`
maps exactly to `(realStart, imagStart)` and pixel `(width-1, height-1)`
exactly to `(realEnd, imagEnd)` whenever `width, height ≥ 2` — and the
2×2, `maxIterations = 1`, `zoom = 1`, offset-0 render produces exactly 4
pixels with pixel `(0,0)` at `(-2, -3/2)` and pixel `(1,1)` at `(1, 3/2)`. -/
theorem pixel_mapping_endpoints (w h : ℤ) (zoom ox oy : ℚ)
    (hw : 2 ≤ w) (hh : 2 ≤ h) :
    pixelCoord w h zoom ox oy 0 0 = ⟨realStart zoom ox, imagStart zoom oy⟩ ∧
    pixelCoord w h zoom ox oy (w - 1) (h - 1) = ⟨realEnd zoom ox, imagEnd zoom oy⟩ ∧
    (generateMandelbrot 2 2 1 1 0 0).length = 4 ∧
    pixelCoord 2 2 1 0 0 0 0 = ⟨-2, -(3/2)⟩ ∧
    pixelCoord 2 2 1 0 0 1 1 = ⟨1, 3/2⟩ := by
  have hw' : (w : ℚ) - 1 ≠ 0 := by
    have : (2 : ℚ) ≤ (w : ℚ) := by exact_mod_cast hw
    linarith
  have hh' : (h : ℚ) - 1 ≠ 0 := by
    have : (2 : ℚ) ≤ (h : ℚ) := by exact_mod_cast hh
    linarith
  refine ⟨?_, ?_, ?_, ?_, ?_⟩
  · simp [pixelCoord]
  · simp only [pixelCoord, Cplx.mk.injEq]
    push_cast
    rw [div_self hw', div_self hh']
    constructor <;> ring
  · exact grid_length _ 2 2
  · with_unfolding_all decide
  · with_unfolding_all decide

/-- Witness for C6 at `w = h = 2`, `zoom = 1`, offsets `0`. -/
theorem pixel_mapping_endpoints_witness :
    pixelCoord 2 2 1 0 0 0 0 = ⟨realStart 1 0, imagStart 1 0⟩ ∧
    pixelCoord 2 2 1 0 0 (2 - 1) (2 - 1) = ⟨realEnd 1 0, imagEnd 1 0⟩ ∧
    (generateMandelbrot 2 2 1 1 0 0).length = 4 ∧
    pixelCoord 2 2 1 0 0 0 0 = ⟨-2, -(3/2)⟩ ∧
    pixelCoord 2 2 1 0 0 1 1 = ⟨1, 3/2⟩ :=
  pixel_mapping_endpoints 2 2 1 0 0 (by norm_num) (by norm_num)

/-- C7, counterexample: `generateMandelbrot(2, 2, 0, 1, 0, 0)` has the
invalid cap `maxIterations = 0 ≤ 0`, yet the call is not rejected: the
source contains no validation, and a fully populated 4-pixel buffer is
produced (here all black). -/
theorem render_not_rejected_counterexample :
    (0 : ℤ) ≤ 0 ∧
      generateMandelbrot 2 2 0 1 0 0 = [⟨0, 0, 0⟩, ⟨0, 0, 0⟩, ⟨0, 0, 0⟩, ⟨0, 0, 0⟩] := by
  with_unfolding_all decide

/-- C7 (amended): `generateMandelbrot` performs no input validation; for
any `width, height ≥ 0` and any `maxIterations` — including `width` or
`height` below 2 and `maxIterations ≤ 0` — it produces a fully populated
buffer of `width × height` pixels rather than rejecting the call. -/
theorem generateMandelbrot_no_validation (w h m : ℤ) (zoom ox oy : ℚ)
    (hw : 0 ≤ w) (hh : 0 ≤ h) :
    (generateMandelbrot w h m zoom ox oy).length = h.toNat * w.toNat := by
  unfold generateMandelbrot
  exact grid_length _ _ _

/-- Witness for C7 (amended) at the invalid call `width = 1`,
`maxIterations = 0`. -/
theorem generateMandelbrot_no_validation_witness :
    (generateMandelbrot 1 3 0 1 0 0).length = 3 :=
  generateMandelbrot_no_validation 1 3 0 1 0 0 (by norm_num) (by norm_num)

/-- C8: any cap `maxIterations ≤ 0` makes the loop condition
`iterations < maxIterations` fail at once, so the evaluator returns `0`
with no orbit update performed. -/
theorem escapeTime_nonpos_cap (c : Cplx) (m : ℤ) (hm : m ≤ 0) :
    escapeTime c m = 0 := by
  unfold escapeTime
  rw [Int.toNat_of_nonpos hm]
  rfl

/-- Witness for C8 at `c = 3 + 3i`, `maxIterations = -2`. -/
theorem escapeTime_nonpos_cap_witness : escapeTime ⟨3, 3⟩ (-2) = 0 :=
  escapeTime_nonpos_cap ⟨3, 3⟩ (-2) (by norm_num)

/-- C9: the render `generateMandelbrot(4, 4, 10, 1, 0, 0)` produces
exactly 16 pixels, every channel of every pixel is in `[0, 255]` (the
channels are `ℕ`, so nonnegativity is by type), and the element at linear
index `y * 4 + x` is exactly the color computed for pixel `(x, y)`. -/
theorem render_4x4 :
    (generateMandelbrot 4 4 10 1 0 0).length = 16 ∧
    (∀ p ∈ generateMandelbrot 4 4 10 1 0 0, p.r ≤ 255 ∧ p.g ≤ 255 ∧ p.b ≤ 255) ∧
    (∀ x y : ℕ, x < 4 → y < 4 →
      (generateMandelbrot 4 4 10 1 0 0)[y * 4 + x]? =
        some (renderPixel 4 4 10 1 0 0 (x : ℤ) (y : ℤ))) := by
  refine ⟨?_, ?_, ?_⟩
  · exact grid_length _ 4 4
  · intro p hp
    unfold generateMandelbrot at hp
    rw [List.mem_flatMap] at hp
    obtain ⟨y, _, hp⟩ := hp
    rw [List.mem_map] at hp
    obtain ⟨x, _, rfl⟩ := hp
    exact getColor_channels_le _ _
  · intro x y hx hy
    exact grid_get (fun a b => renderPixel 4 4 10 1 0 0 (a : ℤ) (b : ℤ)) 4 4 x y hx hy

/-- Witness for C9 at pixel `(1, 2)`, linear index `2 * 4 + 1 = 9`. -/
theorem render_4x4_witness :
    (generateMandelbrot 4 4 10 1 0 0)[2 * 4 + 1]? =
      some (renderPixel 4 4 10 1 0 0 1 2) :=
  render_4x4.2.2 1 2 (by norm_num) (by norm_num)

/-- C10: when `maxIterations = 0`, the escape loop performs no iteration
and yields `iterations = 0 = maxIterations`, so every `getColor` call that
`generateMandelbrot` makes takes the sentinel branch `iterations ==
maxIterations` and returns black before the division `(iterations * 255) /
maxIterations` is reached: a `maxIterations = 0` render is an all-black
buffer and never divides by zero. -/
theorem maxIterations_zero_all_black (c : Cplx) :
    escapeTime c 0 = 0 ∧ getColor (escapeTime c 0) 0 = ⟨0, 0, 0⟩ ∧
      (∀ w h : ℤ, ∀ zoom ox oy : ℚ,
        ∀ p ∈ generateMandelbrot w h 0 zoom ox oy, p = ⟨0, 0, 0⟩) := by
  have h0 : ∀ c' : Cplx, escapeTime c' 0 = 0 := fun c' => rfl
  refine ⟨h0 c, ?_, ?_⟩
  · rw [h0 c]; simp [getColor]
  · intro w h zoom ox oy p hp
    unfold generateMandelbrot at hp
    rw [List.mem_flatMap] at hp
    obtain ⟨y, _, hp⟩ := hp
    rw [List.mem_map] at hp
    obtain ⟨x, _, rfl⟩ := hp
    unfold renderPixel
    rw [h0]
    simp [getColor]

/-- Witness for C10 at `c = 5 + 5i` and the black pixel of the
`2 × 2`, cap-0 render. -/
theorem maxIterations_zero_all_black_witness :
    escapeTime ⟨5, 5⟩ 0 = 0 ∧ (⟨0, 0, 0⟩ : RGB) = ⟨0, 0, 0⟩ :=
  ⟨(maxIterations_zero_all_black ⟨5, 5⟩).1,
    (maxIterations_zero_all_black ⟨5, 5⟩).2.2 2 2 1 0 0 ⟨0, 0, 0⟩
      (by with_unfolding_all decide)⟩
